import Mathlib

/-!
Verification development for the EIPC schema compiler (the `wire.ts`
driver and the `wiring/` modules, plus the validator compiler).

Each TypeScript function the properties touch is shallow-embedded as an
executable Lean definition.  Generated runtime code (the synthesized
validation predicates, the synchronous dispatcher/stub pair, the reactive
store hook) is embedded by its evaluation semantics: a Lean function whose
control flow mirrors, branch for branch, the code text the generator
emits.
-/

/-! ## JavaScript value model

A small model of the JavaScript values the generated validators inspect:
`typeof`, truthiness, property access (absent property reads as
`undefined`) and `Object.keys`.
-/

inductive JsValue where
  | undefined
  | null
  | bool (b : Bool)
  | num (n : Int)
  | str (s : String)
  | obj (fields : List (String × JsValue))
  | arr (elems : List JsValue)

/-- `value === null`. -/
def isJsNull : JsValue → Bool
  | .null => true
  | _ => false

/-- JavaScript `typeof`.  Note `typeof null === 'object'`. -/
def jsTypeOf : JsValue → String
  | .undefined => "undefined"
  | .null => "object"
  | .bool _ => "boolean"
  | .num _ => "number"
  | .str _ => "string"
  | .obj _ => "object"
  | .arr _ => "object"

/-- JavaScript truthiness (`!value` is `!jsTruthy value`). -/
def jsTruthy : JsValue → Bool
  | .undefined => false
  | .null => false
  | .bool b => b
  | .num n => n != 0
  | .str s => s != ""
  | .obj _ => true
  | .arr _ => true

/-- Property access `value[key]`; an absent key reads as `undefined`. -/
def jsGet (v : JsValue) (key : String) : JsValue :=
  match v with
  | .obj fields => (fields.find? (fun p => p.1 == key)).elim JsValue.undefined Prod.snd
  | .arr elems =>
    match key.toNat? with
    | some i => elems.getD i JsValue.undefined
    | none => JsValue.undefined
  | _ => JsValue.undefined

/-- `Object.keys` (own enumerable keys; array indices stringified). -/
def jsKeys : JsValue → List String
  | .obj fields => fields.map Prod.fst
  | .arr elems => (List.range elems.length).map toString
  | _ => []

/-! ## Schema AST for property types (`language/generated/ast.ts` subset)

A property's type is a type reference (with an `array` modifier), a nested
inline structure block, or a key-indexed map (`KeyValueBlock`).  A
structure property carries `optional` and `nullable` modifiers.
-/

mutual
inductive PropertyType where
  | typeRef (reference : String) (array : Bool)
  | structureBlock (props : List PropEntry)
  | keyValueBlock (valueType : PropertyType)

inductive PropEntry where
  | mk (name : String) (optional : Bool) (nullable : Bool) (ptype : PropertyType)
end

/-- Built-in primitives of the wiring layer (`wiring/_constants.ts`). -/
def basePrimitives : List String := ["string", "number", "boolean", "unknown"]

/-! ## Semantics of the synthesized structure validators
(`wiring/structure.ts`)

`wireStructure` / `wireInlineStructure` / `wireKeyValueMap` emit runtime
predicates as TypeScript source text.  The functions below give the
evaluation semantics of that emitted text.  `env` interprets the named
validators referenced for non-primitive base types
(`$eipc_validator$_Name(value)`).
-/

/-- Base check emitted by `validatorFnOrPrimitiveValidatorForType` for a
non-array reference: `'unknown'` compiles to the constant `true`,
primitives compile to a `typeof` test, anything else calls the named
validator. -/
def primOrNamedCheck (env : String → JsValue → Bool) (baseType : String) (v : JsValue) : Bool :=
  if basePrimitives.contains baseType then
    if baseType == "unknown" then true else jsTypeOf v == baseType
  else env baseType v

/-- `validatorFnOrPrimitiveValidatorForType`: the `array` modifier replaces
the base check with `Array.isArray(x) && x.every(elem check)`. -/
def refCheck (env : String → JsValue → Bool) (baseType : String) (isArr : Bool) (v : JsValue) : Bool :=
  if isArr then
    match v with
    | .arr elems => elems.all (primOrNamedCheck env baseType)
    | _ => false
  else primOrNamedCheck env baseType v

mutual
/-- Semantics of the emitted validator body for one property type. -/
def propTypeCheck (env : String → JsValue → Bool) : PropertyType → JsValue → Bool
  | .typeRef base arr, v => refCheck env base arr v
  | .structureBlock props, v =>
    -- emitted: if (!value || typeof value !== 'object') return false;
    if !jsTruthy v || jsTypeOf v != "object" then false
    else propsCheck env props v
  | .keyValueBlock vt, v =>
    -- emitted: if (!value || typeof value !== 'object') return false;
    if !jsTruthy v || jsTypeOf v != "object" then false
    else kvmKeysCheck env vt (jsKeys v) v

/-- Conjunction over the structure's properties (each property line is an
`if (...) return false;`). -/
def propsCheck (env : String → JsValue → Bool) : List PropEntry → JsValue → Bool
  | [], _ => true
  | p :: rest, v => propEntryCheck env p v && propsCheck env rest v

/-- One property line of the emitted structure validator.
Emitted text (with `f` the property name):
`if (<nullable ? "value.f !== null && " : "">!check(value.f)) return false;`
wrapped, when optional, in
`if (typeof value.f !== 'undefined') { ... }`. -/
def propEntryCheck (env : String → JsValue → Bool) : PropEntry → JsValue → Bool
  | .mk nm opt nul pt, v =>
    let fieldVal := jsGet v nm
    let failCheck := (if nul then !isJsNull fieldVal else true)
      && !propTypeCheck env pt fieldVal
    if opt then
      if jsTypeOf fieldVal == "undefined" then true else !failCheck
    else !failCheck

/-- Key loop of the emitted key-value-map validator:
`for (const key of Object.keys(value)) { if (typeof key !== 'string')
return false; if (!check(value[key])) return false }`. -/
def kvmKeysCheck (env : String → JsValue → Bool) (vt : PropertyType) : List String → JsValue → Bool
  | [], _ => true
  | k :: rest, v =>
    if jsTypeOf (JsValue.str k) != "string" then false
    else propTypeCheck env vt (jsGet v k) && kvmKeysCheck env vt rest v
end

/-- Semantics of the validator emitted by `wireStructure` (and by
`wireInlineStructure`, which emits the same shape) for a structure with
the given property list. -/
def structureCheck (env : String → JsValue → Bool) (props : List PropEntry) (v : JsValue) : Bool :=
  if !jsTruthy v || jsTypeOf v != "object" then false
  else propsCheck env props v

/-- Semantics of the validator emitted by `wireKeyValueMap`. -/
def kvmCheck (env : String → JsValue → Bool) (vt : PropertyType) (v : JsValue) : Bool :=
  if !jsTruthy v || jsTypeOf v != "object" then false
  else kvmKeysCheck env vt (jsKeys v) v

/-! ## Subtype root-primitive tracing (`wiring/subtype.ts`, `wireSubType`)

`wireSubType` resolves the root primitive of a constrained subtype by
walking the parent chain with a visited set:

    let basePrimitive = subType.name;
    const visitedTypes = new Set();
    while (!basePrimitives.includes(basePrimitive)) {
      if (visitedTypes.has(basePrimitive))
        throw new Error(cycle message naming subType.name);
      visitedTypes.add(basePrimitive);
      const type = schema.body.find(
        (elem) => elem.type === 'SubType' && elem.name === basePrimitive);
      if (!type) throw new Error(missing message naming subType.name);
      basePrimitive = type.parent;
    }

The loop is embedded with an explicit fuel argument; `outOfFuel` marks
fuel exhaustion, and the termination theorem shows the chosen fuel
`body.length + 1` never exhausts.
-/

structure SubTy where
  name : String
  parent : String

/-- A schema body element: a subtype declaration or any other declaration
kind (enum, structure, interface, validator), which the trace skips. -/
inductive BodyElem where
  | subTy (s : SubTy)
  | other (kind : String) (name : String)

/-- The predicate of `schema.body.find((elem) => elem.type === 'SubType'
&& elem.name === basePrimitive)`. -/
def isSubTyNamed (n : String) : BodyElem → Bool
  | .subTy s => s.name == n
  | .other _ _ => false

def findSubTy (body : List BodyElem) (n : String) : Option SubTy :=
  match body.find? (isSubTyNamed n) with
  | some (.subTy s) => some s
  | _ => none

/-- One parent step of the chain: the parent of the first subtype
declaration named `n`, when there is one. -/
def stepParent (body : List BodyElem) (n : String) : Option String :=
  (findSubTy body n).map SubTy.parent

inductive TraceResult where
  | base (prim : String)
  | cycleErr (subTypeName : String)
  | missingErr (subTypeName : String) (current : String)
  | outOfFuel
deriving DecidableEq

/-- The cycle error thrown by `wireSubType`; note it interpolates
`subType.name`, the name the trace started from. -/
def cycleErrMsg (subTypeName : String) : String :=
  "SubType " ++ subTypeName ++
    " has no resolvable base type, we encountered a cycle while tracing the subtype"

def missingErrMsg (subTypeName current : String) : String :=
  "While tracing SubType " ++ subTypeName ++ " we reached " ++ current ++
    " which does not appear in a reachable schema"

def renderTraceError : TraceResult → Option String
  | .cycleErr n => some (cycleErrMsg n)
  | .missingErr n c => some (missingErrMsg n c)
  | _ => none

def traceLoop (body : List BodyElem) (startName : String) :
    Nat → List String → String → TraceResult
  | 0, _, _ => .outOfFuel
  | fuel + 1, visited, current =>
    if basePrimitives.contains current then .base current
    else if visited.contains current then .cycleErr startName
    else
      match findSubTy body current with
      | none => .missingErr startName current
      | some s => traceLoop body startName fuel (current :: visited) s.parent

/-- The whole-chain trace performed by `wireSubType` for the subtype
named `subTypeName`. -/
def wireSubTypeTrace (body : List BodyElem) (subTypeName : String) : TraceResult :=
  traceLoop body subTypeName (body.length + 1) [] subTypeName

/-- Names of all subtype declarations in the schema body. -/
def subTyNames (body : List BodyElem) : List String :=
  body.filterMap (fun e => match e with
    | .subTy s => some s.name
    | .other _ _ => none)

/-- `chainStepsB body l p` holds when `l` is a nonempty run of parent
steps (each element's first matching subtype declaration names the next
element as parent) whose last element's parent is `p`. -/
def chainStepsB (body : List BodyElem) : List String → String → Bool
  | [], _ => false
  | [c], p => stepParent body c == some p
  | c :: c' :: rest, p => stepParent body c == some c' && chainStepsB body (c' :: rest) p

def iterParent (body : List BodyElem) : Nat → String → Option String
  | 0, n => some n
  | k + 1, n =>
    match stepParent body n with
    | none => none
    | some p => iterParent body k p

/-- A name lies on a parent-chain cycle iff some positive number of
parent steps leads back to it. -/
def onCycleB (body : List BodyElem) (n : String) : Bool :=
  (List.range body.length).any (fun k => iterParent body (k + 1) n == some n)

/-- Concrete schema with a subtype parent cycle not containing the first
subtype: A = B, B = C, C = B. -/
def cycBody : List BodyElem :=
  [BodyElem.subTy ⟨"A", "B"⟩, BodyElem.subTy ⟨"B", "C"⟩, BodyElem.subTy ⟨"C", "B"⟩]

/-! ## Channel identifiers (`wiring/_constants.ts`)

    export const IPC_MESSAGE_PREFIX = `$eipc_message$_${crypto.randomUUID()}_$_`;
    export const ipcMessage = (module, int, method) =>
      `${IPC_MESSAGE_PREFIX}${module.name}_$_${int.name}_$_${method.name}`;

The per-process random salt (the `crypto.randomUUID()` call evaluated once
at module load) is modelled as an explicit `salt` parameter.
-/

def ipcMessage (salt moduleName intName methodName : String) : String :=
  "$eipc_message$_" ++ salt ++ "_$_" ++ moduleName ++ "_$_" ++ intName ++ "_$_" ++ methodName

/-! ## Reactive store hook (`wiring/interface.ts`, the generated hookCode)

The generated React hook for a store method:
- initial state (set synchronously in the useState initializer):
  `missing` when the bridged store is unavailable, otherwise `loading`;
- an effect captures `let cancelled = false`, starts `store.getState()`
  whose resolution / rejection sets `ready` / `error` unless cancelled,
  and subscribes `store.onStateChange`, whose pushes set `ready` unless
  cancelled;
- the cleanup sets `cancelled = true` and calls `unsubscribe()` once.

The hook's observable behaviour is embedded as a state machine over the
events that can reach the hook's closures; `unsubscribeCount` counts the
calls to the unsubscribe closure.
-/

inductive HookDisplay where
  | missing
  | loading
  | ready (result : JsValue)
  | error (message : String)

structure HookSim where
  display : HookDisplay
  cancelled : Bool
  unsubscribeCount : Nat

inductive HookEvent where
  | fetchResolved (result : JsValue)
  | fetchRejected (message : String)
  | push (newState : JsValue)
  | teardown

def isTeardown : HookEvent → Bool
  | .teardown => true
  | _ => false

def hookInit (storeAvailable : Bool) : HookSim :=
  { display := if storeAvailable then .loading else .missing
    cancelled := false
    unsubscribeCount := 0 }

def hookStep (s : HookSim) : HookEvent → HookSim
  | .fetchResolved v => if s.cancelled then s else { s with display := .ready v }
  | .fetchRejected m => if s.cancelled then s else { s with display := .error m }
  | .push v => if s.cancelled then s else { s with display := .ready v }
  | .teardown => { s with cancelled := true, unsubscribeCount := s.unsubscribeCount + 1 }

def hookRun (s : HookSim) (events : List HookEvent) : HookSim :=
  events.foldl hookStep s

/-! ## Synchronous dispatcher and stub (`wiring/interface.ts`)

For a method tagged [Sync] the browser-side handler is generated as

    target.ipc.on(channel, async (event, ...args) => {
      try {
        if (!(eventValidators(event))) throw new Error(origin message);
        // per argument, in order:
        if (!argCheck_i(arg_i)) throw new Error(argument message for i);
        const result = await impl.method(...args);
        if (!retCheck(result)) throw new Error(result message);
        event.returnValue = { result };   // { result: undefined } when the
                                          // method has no return type
      } catch (err) {
        event.returnValue = { error: err instanceof Error ? err.message : String(err) };
      }
    });

and the renderer-side stub as

    method(...args) {
      const response = ipcRenderer.sendSync(channel, ...args);
      if (response.error) throw new Error(response.error);
      return response.result;
    }

`Thrown` models a thrown JavaScript value (an Error object by its
`.message`, any other thrown value by its `String(err)` rendering);
`SyncResponse` models the `event.returnValue` record with its two
optional fields; the user implementation is modelled as its outcome,
a return value or a thrown value.
-/

inductive Thrown where
  | errObj (message : String)
  | raw (stringified : String)

def thrownMessage : Thrown → String
  | .errObj m => m
  | .raw s => s

structure SyncResponse where
  result : Option JsValue := none
  error : Option String := none

structure SyncArg where
  name : String
  value : JsValue
  check : JsValue → Bool

def originFailMsg (methodName intName senderUrl : String) : String :=
  "Incoming \"" ++ methodName ++ "\" call on interface \"" ++ intName ++ "\" from '"
    ++ senderUrl ++ "' did not pass origin validation"

def argFailMsg (argName : String) (idx : Nat) (methodName intName : String) : String :=
  "Argument \"" ++ argName ++ "\" at position " ++ toString idx ++ " to method \""
    ++ methodName ++ "\" in interface \"" ++ intName ++ "\" failed to pass validation"

def resultFailMsg (methodName intName : String) : String :=
  "Result from method \"" ++ methodName ++ "\" in interface \"" ++ intName
    ++ "\" failed to pass validation"

def checkArgs (methodName intName : String) : Nat → List SyncArg → Except Thrown Unit
  | _, [] => Except.ok ()
  | idx, a :: rest =>
    if a.check a.value then checkArgs methodName intName (idx + 1) rest
    else Except.error (Thrown.errObj (argFailMsg a.name idx methodName intName))

def syncTryBody (methodName intName senderUrl : String) (callerOk : Bool)
    (args : List SyncArg) (impl : Except Thrown JsValue)
    (retCheck : Option (JsValue → Bool)) : Except Thrown JsValue :=
  if !callerOk then
    Except.error (Thrown.errObj (originFailMsg methodName intName senderUrl))
  else
    match checkArgs methodName intName 0 args with
    | Except.error t => Except.error t
    | Except.ok () =>
      match impl with
      | Except.error t => Except.error t
      | Except.ok result =>
        match retCheck with
        | none => Except.ok JsValue.undefined
        | some chk =>
          if chk result then Except.ok result
          else Except.error (Thrown.errObj (resultFailMsg methodName intName))

def syncHandler (methodName intName senderUrl : String) (callerOk : Bool)
    (args : List SyncArg) (impl : Except Thrown JsValue)
    (retCheck : Option (JsValue → Bool)) : SyncResponse :=
  match syncTryBody methodName intName senderUrl callerOk args impl retCheck with
  | Except.ok v => { result := some v, error := none }
  | Except.error t => { result := none, error := some (thrownMessage t) }

def jsTruthyOptStr : Option String → Bool
  | none => false
  | some s => s != ""

def syncStub (r : SyncResponse) : Except String (Option JsValue) :=
  if jsTruthyOptStr r.error then Except.error (r.error.getD "")
  else Except.ok r.result

/-! ## Access-validator compiler (`src/unnamed/part_017`, `wiring/validator.ts`)

The variable table, `buildCondition` and the environment selection of
`wireValidator`, embedded with their exact emitted strings and error
messages.  The compiler returns the emitted boolean-expression string
together with the accumulated dependency flags, or the thrown message.
-/

inductive VarType where
  | boolT
  | stringT
deriving DecidableEq

/-- How a `VarType` prints inside messages ('Boolean' / 'String'). -/
def varTypeName : VarType → String
  | .boolT => "Boolean"
  | .stringT => "String"

structure VarInfo where
  depends_on_url : Bool
  renderer_depends_on_webframe : Bool := false
  browser : Option String := none
  renderer : Option String := none
  custom_expression : Option String := none
  type : VarType

/-- The origin fallback: custom protocols (app://, custom://) make
`url.origin` report the sentinel, so the compiler substitutes
protocol + "//" + host. -/
def originCustomExpr : String :=
  "(url.origin === \"null\" || url.origin === null ? `${url.protocol}//${url.host}` : url.origin)"

/- the source names this table `variables`, a reserved word here -/
def validatorVariables : List (String × VarInfo) :=
  [("is_main_frame",
    { depends_on_url := false, renderer_depends_on_webframe := true,
      browser := some "event.senderFrame?.parent === null",
      renderer := some "webFrame.top?.frameToken === webFrame.frameToken",
      type := VarType.boolT }),
   ("is_packaged",
    { depends_on_url := false, renderer_depends_on_webframe := false,
      browser := some "$$app$$.isPackaged", renderer := none, type := VarType.boolT }),
   ("protocol", { depends_on_url := true, type := VarType.stringT }),
   ("origin",
    { depends_on_url := true, custom_expression := some originCustomExpr,
      type := VarType.stringT }),
   ("href", { depends_on_url := true, type := VarType.stringT }),
   ("hostname", { depends_on_url := true, type := VarType.stringT }),
   ("is_about_blank",
    { depends_on_url := false, renderer_depends_on_webframe := false,
      browser := some "event.senderFrame?.url === 'about:blank'",
      renderer := some "window.location.href === 'about:blank'",
      type := VarType.boolT })]

def lookupVar (subject : String) : Option VarInfo :=
  (validatorVariables.find? (fun p => p.1 == subject)).map Prod.snd

def availableVariables : List String := validatorVariables.map Prod.fst

def booleanVariables : List String :=
  (validatorVariables.filter (fun p => p.2.type == VarType.boolT)).map Prod.fst

def stringVariables : List String :=
  (validatorVariables.filter (fun p => p.2.type == VarType.stringT)).map Prod.fst

inductive ValidatorValue where
  | stringValue (value : String)
  | booleanValue (value : String)

inductive ValidatorStatement where
  | vAnd (conditions : List ValidatorStatement)
  | vOr (conditions : List ValidatorStatement)
  | vIs (subject : String) (value : ValidatorValue)
  | vStartsWith (subject : String) (value : String)
  | dynamicGlobal (param : String)

inductive ProcessKind where
  | browser
  | renderer
deriving DecidableEq

structure ConditionFlags where
  renderer_depends_on_web_frame : Bool
  depends_on_url : Bool
deriving DecidableEq

def processField (info : VarInfo) : ProcessKind → Option String
  | .browser => info.browser
  | .renderer => info.renderer

def unknownVarMsg (subject : String) : String :=
  "Unknown variable \"" ++ subject ++ "\" in validator condition.\n\n" ++
    "Available variables: " ++ String.intercalate ", " availableVariables

def typeMismatchMsg (subject : String) (infoType targetType : VarType) : String :=
  "Variable \"" ++ subject ++ "\" is a " ++ varTypeName infoType ++
    ", but you're comparing it to a " ++ varTypeName targetType ++ ".\n\n" ++
    varTypeName targetType ++ " variables: " ++
    String.intercalate ", "
      (if targetType == VarType.boolT then booleanVariables else stringVariables)

def startsWithMismatchMsg (subject : String) (infoType : VarType) : String :=
  "Cannot use \"startsWith\" with \"" ++ subject ++ "\" - it's a " ++
    varTypeName infoType ++ ", not a String.\n\n" ++
    "String variables that support startsWith: " ++
    String.intercalate ", " stringVariables

/-- `value.replace(/^"|"$/g, '')`: strip one leading and one trailing
double quote. -/
def stripQuotes (s : String) : String :=
  let s1 := if s.startsWith "\"" then s.drop 1 else s
  if s1.endsWith "\"" then s1.dropRight 1 else s1

def jsonEscapeChar (c : Char) : String :=
  if c = '"' then "\\\"" else if c = '\\' then "\\\\" else String.singleton c

/-- `JSON.stringify` on a string (escaping of control characters other
than the quote and backslash is elided — no embedded message uses them). -/
def jsonStringify (s : String) : String :=
  "\"" ++ String.join (s.data.map jsonEscapeChar) ++ "\""

/-- The `ValidatorIs` arm of `buildCondition`. -/
def buildIsCondition (subject : String) (value : ValidatorValue) (process : ProcessKind)
    (flags : ConditionFlags) : Except String (String × ConditionFlags) :=
  match lookupVar subject with
  | none => Except.error (unknownVarMsg subject)
  | some info =>
    let flags :=
      if info.depends_on_url then { flags with depends_on_url := true }
      else if info.renderer_depends_on_webframe then
        { flags with renderer_depends_on_web_frame := true }
      else flags
    let targetType :=
      match value with
      | .stringValue _ => VarType.stringT
      | .booleanValue _ => VarType.boolT
    if info.type != targetType then
      Except.error (typeMismatchMsg subject info.type targetType)
    else if !info.depends_on_url && (processField info process).isNone then
      Except.ok ("(true)", flags)
    else
      let expression :=
        if info.depends_on_url then (info.custom_expression).getD ("url." ++ subject)
        else (processField info process).getD ""
      let targetValue :=
        match value with
        | .stringValue sv => jsonStringify (stripQuotes sv)
        | .booleanValue bv => if bv == "true" then "true" else "false"
      Except.ok ("((" ++ expression ++ ") === " ++ targetValue ++ ")", flags)

/-- The `ValidatorStartsWith` arm of `buildCondition`. -/
def buildStartsWithCondition (subject value : String) (process : ProcessKind)
    (flags : ConditionFlags) : Except String (String × ConditionFlags) :=
  match lookupVar subject with
  | none => Except.error (unknownVarMsg subject)
  | some info =>
    let flags :=
      if info.depends_on_url then { flags with depends_on_url := true }
      else if info.renderer_depends_on_webframe then
        { flags with renderer_depends_on_web_frame := true }
      else flags
    if info.type != VarType.stringT then
      Except.error (startsWithMismatchMsg subject info.type)
    else if !info.depends_on_url && (processField info process).isNone then
      Except.ok ("(true)", flags)
    else
      let expression :=
        if info.depends_on_url then (info.custom_expression).getD ("url." ++ subject)
        else (processField info process).getD ""
      Except.ok ("((" ++ expression ++ ").startsWith(" ++
        jsonStringify (stripQuotes value) ++ "))", flags)

mutual
def buildCondition (cond : ValidatorStatement) (process : ProcessKind)
    (flags : ConditionFlags) : Except String (String × ConditionFlags) :=
  match cond with
  | .vAnd conds => do
    let (parts, flagsN) ← buildConditionList conds process flags
    Except.ok ("(" ++ String.intercalate " && " parts ++ ")", flagsN)
  | .vOr conds => do
    let (parts, flagsN) ← buildConditionList conds process flags
    Except.ok ("(" ++ String.intercalate " || " parts ++ ")", flagsN)
  | .vIs subject value => buildIsCondition subject value process flags
  | .vStartsWith subject value => buildStartsWithCondition subject value process flags
  | .dynamicGlobal param =>
    if process = ProcessKind.renderer then Except.ok ("(true)", flags)
    else Except.ok ("(!!(globalThis as any)[" ++ jsonStringify param ++ "])", flags)

def buildConditionList (conds : List ValidatorStatement) (process : ProcessKind)
    (flags : ConditionFlags) : Except String (List String × ConditionFlags) :=
  match conds with
  | [] => Except.ok ([], flags)
  | c :: rest => do
    let (s, flags1) ← buildCondition c process flags
    let (ss, flags2) ← buildConditionList rest process flags1
    Except.ok (s :: ss, flags2)
end

/-! ## Environment-keyed validator selection (`wireValidator`) -/

inductive ValidatorGrammarNode where
  | plain (grammar : ValidatorStatement)
  | structureG (options : List (String × ValidatorStatement))

/-- JavaScript `a || b` on environment strings: undefined and the empty
string are falsy. -/
def jsStrOr (a : Option String) (b : String) : String :=
  match a with
  | some s => if s == "" then b else s
  | none => b

/-- `process.env.EIPC_ENV || process.env.NODE_ENV || 'production'`. -/
def resolveEnvName (eipcEnv nodeEnv : Option String) : String :=
  jsStrOr eipcEnv (jsStrOr nodeEnv "production")

def envErrMsg (validatorToUse : String) : String :=
  "Had an environment dependant validator, but could not find the \"" ++ validatorToUse ++
    "\" definition, either add that definition or set EIPC_ENV or NODE_ENV to the correct environment name"

/-- The grammar-selection step at the top of `wireValidator`. -/
def selectValidatorGrammar (eipcEnv nodeEnv : Option String) :
    ValidatorGrammarNode → Except String ValidatorStatement
  | .plain g => Except.ok g
  | .structureG options =>
    let validatorToUse := resolveEnvName eipcEnv nodeEnv
    match options.find? (fun o => o.1 == validatorToUse) with
    | some o => Except.ok o.2
    | none => Except.error (envErrMsg validatorToUse)

/-! ## Semantics of the compiled origin expression

The URL facility's computed parts for the caller's frame; `origin` is
`none` for a null origin and `some "null"` for the string sentinel the
WHATWG URL class reports for non-standard schemes.
-/

structure UrlParts where
  origin : Option String
  protocol : String
  host : String
  hostname : String
  href : String

/-- Evaluation of `originCustomExpr` against concrete URL parts. -/
def evalOriginExpr (url : UrlParts) : String :=
  if url.origin == some "null" || url.origin == none then url.protocol ++ "//" ++ url.host
  else (url.origin).getD ""

/-- Evaluation of the emitted condition `((originCustomExpr) === "lit")`. -/
def evalCompiledOriginIs (url : UrlParts) (literal : String) : Bool :=
  evalOriginExpr url == literal

/-! ## Module validation (`wire.ts`: `buildWiring` first pass and
`validateModule`)

`buildWiring` first walks every element once, failing fast (a thrown
error) on a primitive redeclaration or a duplicate declaration name, and
registering each name; `validateModule` then walks the elements again,
pushing every defect it finds into a single `errors` array and throwing
one aggregated error when the array is non-empty.
-/

structure ModTag where
  key : String
  value : Option String

structure ModMethod where
  name : String
  args : List (String × String)
  returnType : Option String

structure ModInterface where
  name : String
  tags : List ModTag
  methods : List ModMethod

inductive ModuleElement where
  | interfaceE (i : ModInterface)
  | structureE (name : String) (props : List PropEntry)
  | enumE (name : String) (options : List (String × Option String))
  | subTypeE (name : String) (parent : String)
  | validatorE (name : String)
  | zodE (name : String)

def elementName : ModuleElement → String
  | .interfaceE i => i.name
  | .structureE n _ => n
  | .enumE n _ => n
  | .subTypeE n _ => n
  | .validatorE n => n
  | .zodE n => n

/-- The `$type` discriminator of the element. -/
def elementType : ModuleElement → String
  | .interfaceE _ => "Interface"
  | .structureE _ _ => "Structure"
  | .enumE _ _ => "Enum"
  | .subTypeE _ _ => "SubType"
  | .validatorE _ => "Validator"
  | .zodE _ => "ZodReference"

structure ModuleAst where
  name : String
  elements : List ModuleElement

/-- `wire.ts` PRIMITIVES (note: wider than the wiring layer's
`basePrimitives`). -/
def PRIMITIVES : List String := ["string", "number", "boolean", "null", "void", "unknown"]

/-- JavaScript `Set.add`: keep first insertion order, ignore repeats. -/
def jsSetAdd (l : List String) (x : String) : List String :=
  if l.contains x then l else l ++ [x]

def validateTypeReference (typeName : String) (allowed : List String)
    (context : String) : List String :=
  if !PRIMITIVES.contains typeName && !allowed.contains typeName then
    ["Type \"" ++ typeName ++ "\" used in " ++ context ++ " is not defined."]
  else []

def unknownValidatorMsg (intName tagValue : String) (validators : List String) : String :=
  "Interface \"" ++ intName ++ "\" references validator \"" ++ tagValue ++
    "\" which is not defined.\n" ++ "Available validators: " ++
    (if validators.isEmpty then "(none)" else String.intercalate ", " validators)

/-- The validator-tag loop of `validateInterface`: a `Validator` tag with
a truthy value that names an undeclared validator pushes an error. -/
def validateInterfaceTags (intName : String) (tags : List ModTag)
    (validators : List String) : List String :=
  tags.foldl
    (fun errs tag =>
      if tag.key == "Validator" then
        match tag.value with
        | some v =>
          if v != "" && !validators.contains v then
            errs ++ [unknownValidatorMsg intName v validators]
          else errs
        | none => errs
      else errs)
    []

def dupMethodMsg (intName mname : String) : String :=
  "Interface \"" ++ intName ++ "\" has duplicate method \"" ++ mname ++ "\"."

/-- The method loop of `validateInterface`, threading the
`methodNames` set. -/
def validateMethods (intName : String) (allowed : List String) :
    List String → List ModMethod → List String
  | _, [] => []
  | seen, m :: rest =>
    (if seen.contains m.name then [dupMethodMsg intName m.name] else []) ++
    (m.args.foldl
      (fun errs a => errs ++ validateTypeReference a.2 allowed
        ("argument \"" ++ a.1 ++ "\" in method \"" ++ intName ++ "." ++ m.name ++ "\""))
      []) ++
    (match m.returnType with
     | some r => validateTypeReference r allowed
        ("return type of \"" ++ intName ++ "." ++ m.name ++ "\"")
     | none => []) ++
    validateMethods intName allowed (m.name :: seen) rest

def dupPropMsg (context pname : String) : String :=
  "Structure \"" ++ context ++ "\" has duplicate property \"" ++ pname ++ "\"."

mutual
/-- The property loop of `validateStructureBlock`, threading the
`propNames` set. -/
def validateStructureProps (context : String) (allowed : List String) :
    List String → List PropEntry → List String
  | _, [] => []
  | seen, PropEntry.mk nm _ _ pt :: rest =>
    (if seen.contains nm then [dupPropMsg context nm] else []) ++
    validatePropertyType pt
      ("property \"" ++ nm ++ "\" in structure \"" ++ context ++ "\"") allowed ++
    validateStructureProps context allowed (nm :: seen) rest

def validatePropertyType (pt : PropertyType) (context : String)
    (allowed : List String) : List String :=
  match pt with
  | .typeRef r _ => validateTypeReference r allowed context
  | .structureBlock props => validateStructureProps context allowed [] props
  | .keyValueBlock vt => validatePropertyType vt context allowed
end

def dupEnumNameMsg (ename oname : String) : String :=
  "Enum \"" ++ ename ++ "\" has duplicate option name \"" ++ oname ++ "\"."

def dupEnumValueMsg (ename v : String) : String :=
  "Enum \"" ++ ename ++ "\" has duplicate value \"" ++ v ++ "\"."

/-- The option loop of `validateEnum`, threading both the name set and
the resolved-value set (`opt.value ?? opt.name`). -/
def validateEnumOptions (ename : String) :
    List String → List String → List (String × Option String) → List String
  | _, _, [] => []
  | seenNames, seenValues, (oname, oval) :: rest =>
    (if seenNames.contains oname then [dupEnumNameMsg ename oname] else []) ++
    (if seenValues.contains (oval.getD oname) then
      [dupEnumValueMsg ename (oval.getD oname)] else []) ++
    validateEnumOptions ename (oname :: seenNames) ((oval.getD oname) :: seenValues) rest

def subTypeParentMsg (sname parent : String) : String :=
  "SubType \"" ++ sname ++ "\" extends \"" ++ parent ++ "\" which is not defined.\n" ++
    "Base types must be primitives (string, number, boolean) or other subtypes."

def validateSubTypeE (name parent : String) (allowed : List String) : List String :=
  if !PRIMITIVES.contains parent && !allowed.contains parent then
    [subTypeParentMsg name parent]
  else []

/-- Per-element errors of `validateModule`'s second loop. -/
def elementErrors (validators : List String) (allowed : List String) :
    ModuleElement → List String
  | .interfaceE i =>
    validateInterfaceTags i.name i.tags validators ++
      validateMethods i.name allowed [] i.methods
  | .structureE nm props => validateStructureProps nm allowed [] props
  | .enumE nm options => validateEnumOptions nm [] [] options
  | .subTypeE nm parent => validateSubTypeE nm parent allowed
  | .validatorE _ => []
  | .zodE _ => []

/-- `validateModule`'s validator-name collection pass. -/
def validatorNames (m : ModuleAst) : List String :=
  m.elements.foldl
    (fun acc e =>
      match e with
      | .validatorE n => jsSetAdd acc n
      | _ => acc)
    []

/-- The accumulated `errors` array of `validateModule` (push order). -/
def validateModuleErrors (m : ModuleAst) (allowed : List String) : List String :=
  m.elements.foldl (fun errs e => errs ++ elementErrors (validatorNames m) allowed e) []

inductive BuildError where
  | redeclarePrimitive (name : String)
  | duplicateDefinition (name : String) (firstType secondType : String)
  | semanticErrors (errors : List String)
deriving DecidableEq

def renderBuildError : BuildError → String
  | .redeclarePrimitive n =>
    "Cannot redeclare built-in primitive type \"" ++ n ++ "\"."
  | .duplicateDefinition n t1 t2 =>
    "Duplicate definition of \"" ++ n ++ "\".\n\n" ++ "First defined as: " ++ t1 ++
      "\nAlso defined as: " ++ t2
  | .semanticErrors errs =>
    "Schema validation failed:\n\n" ++ String.intercalate "\n\n" errs

/-- The first registration pass of `buildWiring`: fail fast on a
primitive redeclaration or duplicate name, else register the name. -/
def firstPass : List ModuleElement → List (String × String) → List String →
    Except BuildError (List String)
  | [], _, allowed => Except.ok allowed
  | e :: rest, elementNames, allowed =>
    let typeName := elementName e
    if allowed.contains typeName && PRIMITIVES.contains typeName then
      Except.error (.redeclarePrimitive typeName)
    else
      match elementNames.find? (fun p => p.1 == typeName) with
      | some p => Except.error (.duplicateDefinition typeName p.2 (elementType e))
      | none =>
        firstPass rest (elementNames ++ [(typeName, elementType e)])
          (jsSetAdd allowed typeName)

/-- The validation portion of `buildWiring`: the first pass, then
`validateModule` (which throws one aggregated error when its `errors`
array is non-empty). -/
def buildWiringCheck (m : ModuleAst) : Except BuildError Unit :=
  match firstPass m.elements [] PRIMITIVES with
  | Except.error e => Except.error e
  | Except.ok allowed =>
    let errors := validateModuleErrors m allowed
    if errors.isEmpty then Except.ok () else Except.error (.semanticErrors errors)

/-- A module with two independent defects: a duplicate declaration name
(two structures named A) and an unknown validator reference (interface I
references validator V, which is not declared). -/
def cexModule : ModuleAst :=
  { name := "m"
    elements :=
      [.structureE "A" [], .structureE "A" [],
       .interfaceE { name := "I", tags := [⟨"Validator", some "V"⟩], methods := [] }] }

/-- A module with two independent accumulated-class defects: a duplicate
enum value and an unresolved subtype parent. -/
def witModule : ModuleAst :=
  { name := "w"
    elements :=
      [.enumE "E" [("a", some "x"), ("b", some "x")],
       .subTypeE "S" "Nope",
       .validatorE "V"] }

/-! ## Theorems -/

/-- C10: for every record type, lifted inline record, and key-indexed map
type, the synthesized runtime predicate returns `false` for any input
value that is `null` or not an object (numbers, strings, booleans,
`undefined`); the guard fires before any field or key check (the result
is `false` for every property list, value type and validator
environment), so no field access is ever evaluated on such inputs. -/
theorem synthesized_predicates_reject_non_objects
    (env : String → JsValue → Bool) (props : List PropEntry) (vt : PropertyType)
    (v : JsValue)
    (h : v = JsValue.null ∨ jsTypeOf v ≠ "object") :
    structureCheck env props v = false ∧ kvmCheck env vt v = false := by
  cases v <;> simp_all [structureCheck, kvmCheck, jsTruthy, jsTypeOf]

theorem synthesized_predicates_reject_non_objects_witness :
    structureCheck (fun _ _ => true) [] (JsValue.num 3) = false ∧
    kvmCheck (fun _ _ => true) (.typeRef "string" false) (JsValue.num 3) = false :=
  synthesized_predicates_reject_non_objects (fun _ _ => true) []
    (.typeRef "string" false) (JsValue.num 3) (Or.inr (by decide))

/-- C6 (counterexample): a record with one field marked optional and not
nullable whose declared type is the `unknown` escape hatch: the
synthesized predicate ACCEPTS `{field: null}` (the claim requires it to
be rejected), because `unknown` compiles to the constant `true` check.
The dual half fails too: a field marked nullable and not optional of type
`unknown` makes the predicate accept `{}`. -/
theorem wireStructure_unknown_field_counterexample :
    structureCheck (fun _ _ => false)
      [.mk "f" true false (.typeRef "unknown" false)]
      (JsValue.obj [("f", JsValue.null)]) = true ∧
    structureCheck (fun _ _ => false)
      [.mk "f" false true (.typeRef "unknown" false)]
      (JsValue.obj []) = true := by
  constructor <;>
    simp [structureCheck, propsCheck, propEntryCheck, propTypeCheck, refCheck,
      primOrNamedCheck, jsGet, jsKeys, jsTruthy, jsTypeOf, isJsNull, basePrimitives]

/-- C6 (amended): restricted to fields whose compiled base check rejects
`null` (respectively `undefined`) — which holds for every declared type
except the `unknown` escape hatch, in particular for the primitives
`string`, `number`, `boolean` — the claim holds: an optional,
non-nullable field permits absence and rejects an explicit `null`; a
nullable, non-optional field permits an explicit `null` and rejects
absence. -/
theorem wireStructure_optional_nullable_amended
    (env : String → JsValue → Bool) (nm : String) (pt : PropertyType) :
    (propTypeCheck env pt JsValue.null = false →
      structureCheck env [.mk nm true false pt] (JsValue.obj []) = true ∧
      structureCheck env [.mk nm true false pt] (JsValue.obj [(nm, JsValue.null)]) = false) ∧
    (propTypeCheck env pt JsValue.undefined = false →
      structureCheck env [.mk nm false true pt] (JsValue.obj [(nm, JsValue.null)]) = true ∧
      structureCheck env [.mk nm false true pt] (JsValue.obj []) = false) ∧
    (∀ b, b ∈ (["string", "number", "boolean"] : List String) →
      propTypeCheck env (.typeRef b false) JsValue.null = false ∧
      propTypeCheck env (.typeRef b false) JsValue.undefined = false) := by
  refine ⟨fun h => ?_, fun h => ?_, fun b hb => ?_⟩
  · constructor <;>
      simp [structureCheck, propsCheck, propEntryCheck, jsGet, jsTruthy, jsTypeOf,
        isJsNull, h]
  · constructor <;>
      simp [structureCheck, propsCheck, propEntryCheck, jsGet, jsTruthy, jsTypeOf,
        isJsNull, h]
  · fin_cases hb <;>
      constructor <;>
        simp [propTypeCheck, refCheck, primOrNamedCheck, jsTypeOf, basePrimitives]

theorem wireStructure_optional_nullable_amended_witness :
    structureCheck (fun _ _ => false) [.mk "f" true false (.typeRef "string" false)]
      (JsValue.obj []) = true ∧
    structureCheck (fun _ _ => false) [.mk "f" true false (.typeRef "string" false)]
      (JsValue.obj [("f", JsValue.null)]) = false ∧
    structureCheck (fun _ _ => false) [.mk "f" false true (.typeRef "string" false)]
      (JsValue.obj [("f", JsValue.null)]) = true ∧
    structureCheck (fun _ _ => false) [.mk "f" false true (.typeRef "string" false)]
      (JsValue.obj []) = false := by
  have h := wireStructure_optional_nullable_amended (fun _ _ => false) "f"
    (.typeRef "string" false)
  have hnull : propTypeCheck (fun _ _ => false) (.typeRef "string" false)
      JsValue.null = false := by
    simp [propTypeCheck, refCheck, primOrNamedCheck, jsTypeOf, basePrimitives]
  have hundef : propTypeCheck (fun _ _ => false) (.typeRef "string" false)
      JsValue.undefined = false := by
    simp [propTypeCheck, refCheck, primOrNamedCheck, jsTypeOf, basePrimitives]
  exact ⟨(h.1 hnull).1, (h.1 hnull).2, (h.2.1 hundef).1, (h.2.1 hundef).2⟩

theorem findSubTy_mem_subTyNames {body : List BodyElem} {n : String} {s : SubTy}
    (h : findSubTy body n = some s) : n ∈ subTyNames body := by
  unfold findSubTy at h
  split at h
  case _ e s' heq =>
    have hpred := List.find?_some heq
    have hmem := List.mem_of_find?_eq_some heq
    simp only [isSubTyNamed, beq_iff_eq] at hpred
    exact List.mem_filterMap.mpr ⟨BodyElem.subTy s', hmem, by simp [hpred]⟩
  case _ => cases h

theorem chainStepsB_subset (body : List BodyElem) :
    ∀ (l : List String) (p : String), chainStepsB body l p = true →
      ∀ x ∈ l, x ∈ subTyNames body := by
  intro l
  induction l with
  | nil => intro p h; exact absurd h (by simp [chainStepsB])
  | cons c rest ih =>
    intro p h x hx
    cases rest with
    | nil =>
      have hstep : stepParent body c = some p := by
        simpa [chainStepsB] using h
      obtain ⟨s, hfind, _⟩ := Option.map_eq_some'.mp (by simpa [stepParent] using hstep)
      have hxc : x = c := by simpa using hx
      exact hxc ▸ findSubTy_mem_subTyNames hfind
    | cons c' rest' =>
      simp only [chainStepsB, Bool.and_eq_true, beq_iff_eq] at h
      rcases List.mem_cons.mp hx with hxc | hxrest
      · obtain ⟨s, hfind, _⟩ := Option.map_eq_some'.mp (by simpa [stepParent] using h.1)
        exact hxc ▸ findSubTy_mem_subTyNames hfind
      · exact ih p h.2 x hxrest

theorem traceLoop_through (body : List BodyElem) (start : String) :
    ∀ (rest : List String) (c p : String) (fuel : Nat) (visited : List String),
      chainStepsB body (c :: rest) p = true →
      (c :: rest).Nodup →
      (∀ x ∈ c :: rest, basePrimitives.contains x = false) →
      (∀ x ∈ c :: rest, visited.contains x = false) →
      (c :: rest).length ≤ fuel →
      traceLoop body start fuel visited c =
        traceLoop body start (fuel - (c :: rest).length) ((c :: rest).reverse ++ visited) p := by
  intro rest
  induction rest with
  | nil =>
    intro c p fuel visited hchain hnodup hnprim hnvis hlen
    cases fuel with
    | zero => exact absurd hlen (by simp)
    | succ f =>
      have hstep : stepParent body c = some p := by simpa [chainStepsB] using hchain
      obtain ⟨s, hfind, hpar⟩ := Option.map_eq_some'.mp (by simpa [stepParent] using hstep)
      have hcp := hnprim c (by simp)
      have hcv := hnvis c (by simp)
      simp at hcp hcv
      simp [traceLoop, hcp, hcv, hfind, hpar]
  | cons c' rest' ih =>
    intro c p fuel visited hchain hnodup hnprim hnvis hlen
    cases fuel with
    | zero => exact absurd hlen (by simp)
    | succ f =>
      simp only [chainStepsB, Bool.and_eq_true, beq_iff_eq] at hchain
      obtain ⟨s, hfind, hpar⟩ := Option.map_eq_some'.mp (by simpa [stepParent] using hchain.1)
      have hcp := hnprim c (by simp)
      have hcv := hnvis c (by simp)
      simp at hcp hcv
      have hcnotin : c ∉ c' :: rest' := (List.nodup_cons.mp hnodup).1
      have step1 : traceLoop body start (f + 1) visited c =
          traceLoop body start f (c :: visited) c' := by
        simp [traceLoop, hcp, hcv, hfind, hpar]
      have hnvis' : ∀ x ∈ c' :: rest', (c :: visited).contains x = false := by
        intro x hx
        have hne : x ≠ c := fun heq => hcnotin (heq ▸ hx)
        have hv := hnvis x (List.mem_cons_of_mem _ hx)
        simp at hv ⊢
        exact ⟨hne, hv⟩
      have step2 := ih c' p f (c :: visited) hchain.2 (List.nodup_cons.mp hnodup).2
        (fun x hx => hnprim x (List.mem_cons_of_mem _ hx)) hnvis'
        (by simp at hlen ⊢; omega)
      have harith : (f + 1) - (c :: c' :: rest').length = f - (c' :: rest').length := by
        simp only [List.length_cons]; omega
      have hlist : (c :: c' :: rest').reverse ++ visited =
          (c' :: rest').reverse ++ (c :: visited) := by simp
      rw [step1, harith, hlist]
      exact step2

theorem traceLoop_ne_outOfFuel (body : List BodyElem) (start : String) :
    ∀ (fuel : Nat) (visited : List String) (current : String),
      ((subTyNames body).toFinset \ visited.toFinset).card < fuel →
      traceLoop body start fuel visited current ≠ TraceResult.outOfFuel := by
  intro fuel
  induction fuel with
  | zero => intro visited current h; exact absurd h (Nat.not_lt_zero _)
  | succ f ih =>
    intro visited current h
    by_cases hprim : current ∈ basePrimitives
    · simp [traceLoop, hprim]
    · by_cases hvis : current ∈ visited
      · simp [traceLoop, hprim, hvis]
      · cases hfind : findSubTy body current with
        | none => simp [traceLoop, hprim, hvis, hfind]
        | some s =>
          have hred : traceLoop body start (f + 1) visited current =
              traceLoop body start f (current :: visited) s.parent := by
            simp [traceLoop, hprim, hvis, hfind]
          rw [hred]
          apply ih
          have hmem : current ∈ subTyNames body := findSubTy_mem_subTyNames hfind
          have hnotmem : current ∉ visited := hvis
          have hin : current ∈ (subTyNames body).toFinset \ visited.toFinset := by
            rw [Finset.mem_sdiff]
            exact ⟨List.mem_toFinset.mpr hmem, fun hc => hnotmem (List.mem_toFinset.mp hc)⟩
          rw [List.toFinset_cons, Finset.sdiff_insert, Finset.card_erase_of_mem hin]
          have hpos : 0 < ((subTyNames body).toFinset \ visited.toFinset).card :=
            Finset.card_pos.mpr ⟨current, hin⟩
          omega

/-- C3 (counterexample): for the schema `A = B, B = C, C = B` the parent
chain of `A` runs into the cycle `B -> C -> B`; `wireSubType` raises the
cyclic-subtype error interpolating `A` — the subtype whose wiring began
the trace — even though `A` is not on the cycle (and `A` is not the name
at which the cycle was detected, which is `B`). -/
theorem wireSubType_cycle_error_counterexample :
    wireSubTypeTrace cycBody "A" = TraceResult.cycleErr "A" ∧
    renderTraceError (wireSubTypeTrace cycBody "A") = some (cycleErrMsg "A") ∧
    onCycleB cycBody "A" = false ∧
    onCycleB cycBody "B" = true ∧
    onCycleB cycBody "C" = true := by
  refine ⟨by decide, by decide, by decide, by decide, by decide⟩

/-- C3 (amended): root-primitive resolution always terminates (the fuel
`body.length + 1` never exhausts); for every subtype whose parent chain
reaches a built-in primitive without revisiting a name, the trace returns
that root primitive; and for every subtype whose parent chain runs into a
cycle, a fatal cyclic-subtype error is raised identifying the name of the
subtype whose resolution started the trace (not necessarily a name on the
cycle). -/
theorem wireSubType_root_resolution_amended (body : List BodyElem) (start : String) :
    wireSubTypeTrace body start ≠ TraceResult.outOfFuel ∧
    (∀ l prim, chainStepsB body l prim = true → l.head? = some start → l.Nodup →
      (∀ x ∈ l, basePrimitives.contains x = false) →
      basePrimitives.contains prim = true →
      wireSubTypeTrace body start = TraceResult.base prim) ∧
    (∀ l r, chainStepsB body l r = true → l.head? = some start → l.Nodup →
      (∀ x ∈ l, basePrimitives.contains x = false) →
      r ∈ l →
      wireSubTypeTrace body start = TraceResult.cycleErr start) := by
  refine ⟨?_, ?_, ?_⟩
  · apply traceLoop_ne_outOfFuel
    have h1 : (subTyNames body).toFinset.card ≤ (subTyNames body).length :=
      (subTyNames body).toFinset_card_le
    have h2 : (subTyNames body).length ≤ body.length := List.length_filterMap_le _ _
    simp only [List.toFinset_nil, Finset.sdiff_empty]
    omega
  · intro l prim hchain hhead hnodup hnprim hprimm
    cases l with
    | nil => cases hhead
    | cons c rest =>
      have hc : c = start := by simpa using hhead
      subst hc
      have hsub := chainStepsB_subset body (c :: rest) prim hchain
      have hlenle : (c :: rest).length ≤ (subTyNames body).length :=
        (List.subperm_of_subset hnodup fun x hx => hsub x hx).length_le
      have hlen2 : (subTyNames body).length ≤ body.length := List.length_filterMap_le _ _
      have hfuel : (c :: rest).length ≤ body.length + 1 := by omega
      have hwalk := traceLoop_through body c rest c prim (body.length + 1) []
        hchain hnodup hnprim (fun x _ => rfl) hfuel
      show traceLoop body c (body.length + 1) [] c = TraceResult.base prim
      rw [hwalk]
      obtain ⟨k, hk⟩ : ∃ k, body.length + 1 - (c :: rest).length = k + 1 :=
        ⟨body.length - (c :: rest).length, by omega⟩
      rw [hk]
      simp at hprimm
      simp [traceLoop, hprimm]
  · intro l r hchain hhead hnodup hnprim hrin
    cases l with
    | nil => cases hhead
    | cons c rest =>
      have hc : c = start := by simpa using hhead
      subst hc
      have hsub := chainStepsB_subset body (c :: rest) r hchain
      have hlenle : (c :: rest).length ≤ (subTyNames body).length :=
        (List.subperm_of_subset hnodup fun x hx => hsub x hx).length_le
      have hlen2 : (subTyNames body).length ≤ body.length := List.length_filterMap_le _ _
      have hfuel : (c :: rest).length ≤ body.length + 1 := by omega
      have hwalk := traceLoop_through body c rest c r (body.length + 1) []
        hchain hnodup hnprim (fun x _ => rfl) hfuel
      show traceLoop body c (body.length + 1) [] c = TraceResult.cycleErr c
      rw [hwalk]
      obtain ⟨k, hk⟩ : ∃ k, body.length + 1 - (c :: rest).length = k + 1 :=
        ⟨body.length - (c :: rest).length, by omega⟩
      rw [hk]
      have hrp : r ∉ basePrimitives := by
        have := hnprim r hrin
        simpa using this
      rcases List.mem_cons.mp hrin with h | h
      · subst h
        simp [traceLoop, hrp]
      · simp [traceLoop, hrp, h]

theorem wireSubType_root_resolution_amended_witness :
    wireSubTypeTrace [BodyElem.subTy ⟨"U", "V"⟩, BodyElem.subTy ⟨"V", "string"⟩] "U" =
      TraceResult.base "string" ∧
    wireSubTypeTrace cycBody "A" = TraceResult.cycleErr "A" := by
  constructor
  · exact (wireSubType_root_resolution_amended
      [BodyElem.subTy ⟨"U", "V"⟩, BodyElem.subTy ⟨"V", "string"⟩] "U").2.1
      ["U", "V"] "string" (by decide) (by decide) (by decide) (by decide) (by decide)
  · exact (wireSubType_root_resolution_amended cycBody "A").2.2
      ["A", "B", "C"] "B" (by decide) (by decide) (by decide) (by decide) (by decide)

theorem append_dollar_sep_cancel :
    ∀ (a u b v : List Char),
      '$' ∉ a → '$' ∉ b → a ++ '$' :: u = b ++ '$' :: v → a = b ∧ u = v := by
  intro a
  induction a with
  | nil =>
    intro u b v _ hb h
    cases b with
    | nil => simpa using h
    | cons c b' =>
      simp only [List.nil_append, List.cons_append] at h
      injection h with h1 h2
      exact absurd (h1 ▸ List.mem_cons_self c b') hb
  | cons c a' ih =>
    intro u b v ha hb h
    cases b with
    | nil =>
      simp only [List.cons_append, List.nil_append] at h
      injection h with h1 h2
      exact absurd (h1 ▸ List.mem_cons_self c a') ha
    | cons c' b' =>
      simp only [List.cons_append] at h
      injection h with h1 h2
      obtain ⟨hab, huv⟩ := ih u b' v (fun hm => ha (List.mem_cons_of_mem _ hm))
        (fun hm => hb (List.mem_cons_of_mem _ hm)) h2
      exact ⟨by rw [h1, hab], huv⟩

theorem sep_data : ("_$_" : String).data = ['_', '$', '_'] := rfl

theorem ipcMessage_test : ipcMessage "S" "m" "i" "me" = "$eipc_message$_S_$_m_$_i_$_me" := rfl

theorem sep_block_cancel (a₁ t₁ a₂ t₂ : List Char)
    (h₁ : '$' ∉ a₁) (h₂ : '$' ∉ a₂)
    (h : a₁ ++ '_' :: '$' :: '_' :: t₁ = a₂ ++ '_' :: '$' :: '_' :: t₂) :
    a₁ = a₂ ∧ t₁ = t₂ := by
  have h' : (a₁ ++ ['_']) ++ '$' :: ('_' :: t₁) = (a₂ ++ ['_']) ++ '$' :: ('_' :: t₂) := by
    simpa [List.append_assoc] using h
  have ha₁ : '$' ∉ a₁ ++ ['_'] := by simp [h₁]
  have ha₂ : '$' ∉ a₂ ++ ['_'] := by simp [h₂]
  obtain ⟨hA, hT⟩ := append_dollar_sep_cancel _ _ _ _ ha₁ ha₂ h'
  have haeq := List.append_cancel_right hA
  injection hT with _ hT'
  exact ⟨haeq, hT'⟩

/-- C9: the channel identifier is a deterministic pure function of the
salt and the module/service/method names; with the salt fixed, distinct
(module, service, method) triples yield distinct identifiers whenever the
names are `$`-free (the schema grammar only admits identifiers over
letters, digits, `_` and `.`, so every declared name is `$`-free); and
for a fixed triple, distinct salts — i.e. different builds — yield
distinct identifiers. -/
theorem ipcMessage_channel_identifier_properties :
    (∀ salt m₁ i₁ me₁ m₂ i₂ me₂ : String,
      '$' ∉ m₁.data → '$' ∉ i₁.data → '$' ∉ me₁.data →
      '$' ∉ m₂.data → '$' ∉ i₂.data → '$' ∉ me₂.data →
      ipcMessage salt m₁ i₁ me₁ = ipcMessage salt m₂ i₂ me₂ →
      m₁ = m₂ ∧ i₁ = i₂ ∧ me₁ = me₂) ∧
    (∀ s₁ s₂ m i me : String, s₁ ≠ s₂ → ipcMessage s₁ m i me ≠ ipcMessage s₂ m i me) := by
  constructor
  · intro salt m₁ i₁ me₁ m₂ i₂ me₂ hm₁ hi₁ hme₁ hm₂ hi₂ hme₂ h
    have hd := congrArg String.data h
    simp only [ipcMessage, String.data_append, sep_data, List.append_assoc,
      List.cons_append, List.nil_append] at hd
    simp only [List.cons.injEq, eq_self_iff_true, true_and] at hd
    have hd1 := List.append_cancel_left hd
    injection hd1 with _ hd3
    injection hd3 with _ hd4
    injection hd4 with _ hd5
    obtain ⟨hmeq, hrest⟩ := sep_block_cancel _ _ _ _ hm₁ hm₂ hd5
    obtain ⟨hieq, hmeeq⟩ := sep_block_cancel _ _ _ _ hi₁ hi₂ hrest
    exact ⟨String.ext hmeq, String.ext hieq, String.ext hmeeq⟩
  · intro s₁ s₂ m i me hne h
    have hd := congrArg String.data h
    simp only [ipcMessage, String.data_append, List.append_assoc] at hd
    have hd1 := List.append_cancel_left hd
    exact hne (String.ext (List.append_cancel_right hd1))

theorem ipcMessage_channel_identifier_properties_witness :
    ("app.mod" = "app.mod" ∧ "Svc" = "Svc" ∧ "getValue" = "getValue") ∧
    ipcMessage "salt-one" "app.mod" "Svc" "getValue" ≠
      ipcMessage "salt-two" "app.mod" "Svc" "getValue" := by
  constructor
  · exact ipcMessage_channel_identifier_properties.1 "salt-one" "app.mod" "Svc" "getValue"
      "app.mod" "Svc" "getValue" (by decide) (by decide) (by decide) (by decide) (by decide)
      (by decide) rfl
  · exact ipcMessage_channel_identifier_properties.2 "salt-one" "salt-two" "app.mod" "Svc"
      "getValue" (by decide)

theorem hookRun_append (s : HookSim) (l₁ l₂ : List HookEvent) :
    hookRun s (l₁ ++ l₂) = hookRun (hookRun s l₁) l₂ :=
  List.foldl_append hookStep s l₁ l₂

theorem hookRun_cancelled_frozen (s : HookSim) (l : List HookEvent)
    (hc : s.cancelled = true) (hl : ∀ e ∈ l, e ≠ HookEvent.teardown) :
    hookRun s l = s := by
  induction l with
  | nil => rfl
  | cons e rest ih =>
    have hstep : hookStep s e = s := by
      cases e with
      | fetchResolved v => simp [hookStep, hc]
      | fetchRejected m => simp [hookStep, hc]
      | push v => simp [hookStep, hc]
      | teardown => exact absurd rfl (hl _ (List.mem_cons_self _ _))
    show hookRun (hookStep s e) rest = s
    rw [hstep]
    exact ih fun x hx => hl x (List.mem_cons_of_mem _ hx)

theorem hookRun_unsubscribeCount (l : List HookEvent) :
    ∀ s : HookSim, (hookRun s l).unsubscribeCount =
      s.unsubscribeCount + l.countP isTeardown := by
  induction l with
  | nil => intro s; simp [hookRun]
  | cons e rest ih =>
    intro s
    show (hookRun (hookStep s e) rest).unsubscribeCount = _
    rw [ih]
    have hkeep : (hookStep s e).unsubscribeCount =
        s.unsubscribeCount + (if isTeardown e then 1 else 0) := by
      cases e with
      | fetchResolved v => by_cases hc : s.cancelled = true <;> simp [hookStep, isTeardown, hc]
      | fetchRejected m => by_cases hc : s.cancelled = true <;> simp [hookStep, isTeardown, hc]
      | push v => by_cases hc : s.cancelled = true <;> simp [hookStep, isTeardown, hc]
      | teardown => simp [hookStep, isTeardown]
    rw [hkeep, List.countP_cons]
    by_cases ht : isTeardown e = true
    · simp [ht]
      omega
    · simp [ht]

/-- C5: the generated store hook synchronously starts in `loading` when
the store is exposed; the first update — initial fetch resolution or a
live push — moves it to `ready` with that value; a fetch failure moves it
to `error`; every push while not cancelled re-enters `ready` with the new
value; and after teardown the state is frozen (a late-arriving fetch
result or push is never applied) with the subscription unsubscribed
exactly as many times as teardown ran — once for a single teardown. -/
theorem store_hook_lifecycle :
    ((hookInit true).display = HookDisplay.loading ∧ (hookInit true).cancelled = false) ∧
    (∀ v, (hookStep (hookInit true) (.fetchResolved v)).display = HookDisplay.ready v) ∧
    (∀ v, (hookStep (hookInit true) (.push v)).display = HookDisplay.ready v) ∧
    (∀ m, (hookStep (hookInit true) (.fetchRejected m)).display = HookDisplay.error m) ∧
    (∀ (s : HookSim) (v : JsValue), s.cancelled = false →
      (hookStep s (.push v)).display = HookDisplay.ready v) ∧
    (∀ pre post, (∀ e ∈ post, e ≠ HookEvent.teardown) →
      hookRun (hookInit true) (pre ++ HookEvent.teardown :: post) =
        hookRun (hookInit true) (pre ++ [HookEvent.teardown])) ∧
    (∀ trace, (hookRun (hookInit true) trace).unsubscribeCount = trace.countP isTeardown) := by
  refine ⟨⟨rfl, rfl⟩, fun v => rfl, fun v => rfl, fun m => rfl, ?_, ?_, ?_⟩
  · intro s v hc
    simp [hookStep, hc]
  · intro pre post hpost
    have h1 : pre ++ HookEvent.teardown :: post = (pre ++ [HookEvent.teardown]) ++ post := by
      simp
    rw [h1, hookRun_append]
    apply hookRun_cancelled_frozen _ _ _ hpost
    rw [hookRun_append]
    rfl
  · intro trace
    rw [hookRun_unsubscribeCount]
    simp [hookInit]

theorem store_hook_lifecycle_witness :
    (hookStep (hookInit true) (.fetchResolved (JsValue.num 0))).display =
      HookDisplay.ready (JsValue.num 0) ∧
    hookRun (hookInit true)
        ([HookEvent.fetchResolved (JsValue.num 0)] ++ HookEvent.teardown ::
          [HookEvent.fetchResolved (JsValue.num 5)]) =
      hookRun (hookInit true)
        ([HookEvent.fetchResolved (JsValue.num 0)] ++ [HookEvent.teardown]) ∧
    (hookRun (hookInit true)
        [HookEvent.fetchResolved (JsValue.num 0), HookEvent.teardown]).unsubscribeCount = 1 := by
  refine ⟨store_hook_lifecycle.2.1 (JsValue.num 0), ?_, ?_⟩
  · exact store_hook_lifecycle.2.2.2.2.2.1 [HookEvent.fetchResolved (JsValue.num 0)]
      [HookEvent.fetchResolved (JsValue.num 5)]
      (fun e he => by
        rw [List.mem_singleton] at he
        subst he
        exact fun hc => HookEvent.noConfusion hc)
  · have h := store_hook_lifecycle.2.2.2.2.2.2
      [HookEvent.fetchResolved (JsValue.num 0), HookEvent.teardown]
    simpa [List.countP, List.countP.go, isTeardown] using h

/-- C2 (counterexample): a user implementation that throws an Error whose
message is the empty string.  The dispatcher captures the tagged outcome
`{error: ""}` — the `{error}` field is present — but the generated stub's
`if (response.error)` treats the empty string as falsy, so the stub does
NOT re-raise: it returns the absent `{result}` value (undefined) as a
successful return, contradicting the claim that the stub re-raises
whenever `{error}` is present. -/
theorem sync_stub_empty_error_counterexample :
    (syncHandler "m" "I" "app://x" true [] (Except.error (Thrown.errObj ""))
      (some (fun _ => true))).error = some "" ∧
    syncStub (syncHandler "m" "I" "app://x" true [] (Except.error (Thrown.errObj ""))
      (some (fun _ => true))) = Except.ok none := by
  constructor <;> rfl

theorem checkArgs_spec (methodName intName : String) :
    ∀ (args : List SyncArg) (idx : Nat),
      (args.all (fun a => a.check a.value) = true →
        checkArgs methodName intName idx args = Except.ok ()) ∧
      (args.all (fun a => a.check a.value) = false →
        ∃ t, checkArgs methodName intName idx args = Except.error t) := by
  intro args
  induction args with
  | nil => intro idx; exact ⟨fun _ => rfl, fun h => by simp at h⟩
  | cons a rest ih =>
    intro idx
    constructor
    · intro h
      simp only [List.all_cons, Bool.and_eq_true] at h
      simp [checkArgs, h.1, (ih (idx + 1)).1 h.2]
    · intro h
      by_cases ha : a.check a.value = true
      · simp only [List.all_cons, ha, Bool.true_and] at h
        obtain ⟨t, ht⟩ := (ih (idx + 1)).2 h
        exact ⟨t, by simp [checkArgs, ha, ht]⟩
      · have ha' : a.check a.value = false := by simpa using ha
        exact ⟨Thrown.errObj (argFailMsg a.name idx methodName intName),
          by simp [checkArgs, ha']⟩

/-- C2 (amended): the generated synchronous dispatcher captures every
failure — caller rejection, argument-validation failure (in positional
order), a thrown user-implementation exception, return-validation
failure — into a tagged `{error}` outcome, and every success into a
tagged `{result}` outcome; exactly one of the two tags is ever present,
and nothing propagates across the boundary.  The cooperative stub
re-raises when `{error}` is present with a non-empty (truthy) message;
when `{error}` is absent — or present with an empty message, which
JavaScript truthiness treats as absent — it returns the `{result}`
value. -/
theorem sync_dispatch_tagged_outcome_amended
    (methodName intName senderUrl : String) (callerOk : Bool)
    (args : List SyncArg) (impl : Except Thrown JsValue)
    (retCheck : Option (JsValue → Bool)) :
    ((∃ v, syncHandler methodName intName senderUrl callerOk args impl retCheck =
        { result := some v, error := none }) ∨
     (∃ m, syncHandler methodName intName senderUrl callerOk args impl retCheck =
        { result := none, error := some m })) ∧
    (callerOk = false →
      syncHandler methodName intName senderUrl callerOk args impl retCheck =
        { result := none, error := some (originFailMsg methodName intName senderUrl) }) ∧
    (args.all (fun a => a.check a.value) = false →
      ∃ m, syncHandler methodName intName senderUrl callerOk args impl retCheck =
        { result := none, error := some m }) ∧
    (callerOk = true → args.all (fun a => a.check a.value) = true →
      ∀ t, impl = Except.error t →
        syncHandler methodName intName senderUrl callerOk args impl retCheck =
          { result := none, error := some (thrownMessage t) }) ∧
    (callerOk = true → args.all (fun a => a.check a.value) = true →
      ∀ v chk, impl = Except.ok v → retCheck = some chk → chk v = false →
        syncHandler methodName intName senderUrl callerOk args impl retCheck =
          { result := none, error := some (resultFailMsg methodName intName) }) ∧
    (callerOk = true → args.all (fun a => a.check a.value) = true →
      ∀ v chk, impl = Except.ok v → retCheck = some chk → chk v = true →
        syncHandler methodName intName senderUrl callerOk args impl retCheck =
          { result := some v, error := none }) ∧
    (∀ r : SyncResponse,
      (∀ e, r.error = some e → e ≠ "" → syncStub r = Except.error e) ∧
      ((r.error = none ∨ r.error = some "") → syncStub r = Except.ok r.result)) := by
  refine ⟨?_, ?_, ?_, ?_, ?_, ?_, ?_⟩
  · cases h : syncTryBody methodName intName senderUrl callerOk args impl retCheck with
    | ok v => exact Or.inl ⟨v, by simp [syncHandler, h]⟩
    | error t => exact Or.inr ⟨thrownMessage t, by simp [syncHandler, h]⟩
  · intro hc
    subst hc
    simp [syncHandler, syncTryBody, thrownMessage]
  · intro hargs
    obtain ⟨t, ht⟩ := (checkArgs_spec methodName intName args 0).2 hargs
    cases callerOk with
    | false => exact ⟨originFailMsg methodName intName senderUrl,
        by simp [syncHandler, syncTryBody, thrownMessage]⟩
    | true => exact ⟨thrownMessage t, by simp [syncHandler, syncTryBody, ht]⟩
  · intro hc hargs t himpl
    subst hc himpl
    have hok := (checkArgs_spec methodName intName args 0).1 hargs
    simp [syncHandler, syncTryBody, hok]
  · intro hc hargs v chk himpl hret hchk
    subst hc himpl hret
    have hok := (checkArgs_spec methodName intName args 0).1 hargs
    simp [syncHandler, syncTryBody, hok, hchk, thrownMessage]
  · intro hc hargs v chk himpl hret hchk
    subst hc himpl hret
    have hok := (checkArgs_spec methodName intName args 0).1 hargs
    simp [syncHandler, syncTryBody, hok, hchk]
  · intro r
    constructor
    · intro e he hne
      simp [syncStub, jsTruthyOptStr, he, hne]
    · intro hcase
      rcases hcase with h | h <;> simp [syncStub, jsTruthyOptStr, h]

theorem sync_dispatch_tagged_outcome_amended_witness :
    syncHandler "getValue" "Svc" "https://ok.example" true
      [⟨"a", JsValue.num 2, fun v => jsTypeOf v == "number"⟩]
      (Except.ok (JsValue.num 5)) (some (fun v => jsTypeOf v == "number")) =
      { result := some (JsValue.num 5), error := none } ∧
    syncHandler "getValue" "Svc" "spoof://bad" false [] (Except.ok JsValue.undefined) none =
      { result := none,
        error := some (originFailMsg "getValue" "Svc" "spoof://bad") } ∧
    syncStub { result := none, error := some "boom" } = Except.error "boom" := by
  refine ⟨?_, ?_, ?_⟩
  · exact (sync_dispatch_tagged_outcome_amended "getValue" "Svc" "https://ok.example" true
      [⟨"a", JsValue.num 2, fun v => jsTypeOf v == "number"⟩]
      (Except.ok (JsValue.num 5)) (some (fun v => jsTypeOf v == "number"))).2.2.2.2.2.1
      rfl (by simp [jsTypeOf]) (JsValue.num 5) (fun v => jsTypeOf v == "number") rfl rfl
      (by simp [jsTypeOf])
  · exact (sync_dispatch_tagged_outcome_amended "getValue" "Svc" "spoof://bad" false
      [] (Except.ok JsValue.undefined) none).2.1 rfl
  · exact ((sync_dispatch_tagged_outcome_amended "x" "y" "z" true [] (Except.ok JsValue.undefined)
      none).2.2.2.2.2.2 { result := none, error := some "boom" }).1 "boom" rfl
      (by decide)

/-- C4: compiling an access-validator equality condition over the
`origin` subject emits the fallback expression substituting
`protocol + "//" + host` whenever the URL facility's computed origin is
the sentinel (the string "null" or null itself); in particular a frame at
origin "app://myapp" — where the URL facility reports the sentinel —
passes a validator requiring `origin is "app://myapp"`. -/
theorem origin_fallback_substitution :
    (∀ (process : ProcessKind) (flags : ConditionFlags) (lit : String),
      buildCondition (.vIs "origin" (.stringValue lit)) process flags =
        Except.ok ("((" ++ originCustomExpr ++ ") === " ++ jsonStringify (stripQuotes lit) ++ ")",
          { flags with depends_on_url := true })) ∧
    (∀ url : UrlParts, (url.origin = some "null" ∨ url.origin = none) →
      evalOriginExpr url = url.protocol ++ "//" ++ url.host) ∧
    evalCompiledOriginIs
      { origin := some "null", protocol := "app:", host := "myapp",
        hostname := "myapp", href := "app://myapp" } "app://myapp" = true := by
  refine ⟨?_, ?_, ?_⟩
  · intro process flags lit
    simp [buildCondition, buildIsCondition, lookupVar, validatorVariables]
  · intro url h
    rcases h with h | h <;> simp [evalOriginExpr, h]
  · rfl

theorem origin_fallback_substitution_witness :
    evalOriginExpr
      { origin := some "null", protocol := "app:", host := "myapp",
        hostname := "myapp", href := "app://myapp" } = "app:" ++ "//" ++ "myapp" :=
  origin_fallback_substitution.2.1
    { origin := some "null", protocol := "app:", host := "myapp",
      hostname := "myapp", href := "app://myapp" } (Or.inl rfl)

/-- C8: for every access-validator equality condition comparing a
boolean-typed subject variable to a string literal, or a string-typed
subject variable to a boolean literal, compilation raises the
type-mismatch error — never an `ok` emission, so nothing is silently
coerced — and the message names exactly the variables compatible with
the literal's type (the string variables for a string literal, the
boolean variables for a boolean literal). -/
theorem validator_type_mismatch
    (subject : String) (info : VarInfo) (hlook : lookupVar subject = some info) :
    (info.type = VarType.boolT →
      ∀ (sv : String) (process : ProcessKind) (flags : ConditionFlags),
        buildCondition (.vIs subject (.stringValue sv)) process flags =
          Except.error (typeMismatchMsg subject VarType.boolT VarType.stringT)) ∧
    (info.type = VarType.stringT →
      ∀ (bv : String) (process : ProcessKind) (flags : ConditionFlags),
        buildCondition (.vIs subject (.booleanValue bv)) process flags =
          Except.error (typeMismatchMsg subject VarType.stringT VarType.boolT)) ∧
    typeMismatchMsg subject VarType.boolT VarType.stringT =
      "Variable \"" ++ subject ++ "\" is a Boolean, but you're comparing it to a String.\n\n"
        ++ "String variables: protocol, origin, href, hostname" ∧
    typeMismatchMsg subject VarType.stringT VarType.boolT =
      "Variable \"" ++ subject ++ "\" is a String, but you're comparing it to a Boolean.\n\n"
        ++ "Boolean variables: is_main_frame, is_packaged, is_about_blank" := by
  refine ⟨?_, ?_, ?_, ?_⟩
  · intro ht sv process flags
    simp [buildCondition, buildIsCondition, hlook, ht]
  · intro ht bv process flags
    simp [buildCondition, buildIsCondition, hlook, ht]
  · simp [typeMismatchMsg, varTypeName, stringVariables, validatorVariables,
      String.intercalate, String.intercalate.go, String.append_assoc]
  · simp [typeMismatchMsg, varTypeName, booleanVariables, validatorVariables,
      String.intercalate, String.intercalate.go, String.append_assoc]

theorem validator_type_mismatch_witness :
    buildCondition (.vIs "is_packaged" (.stringValue "\"x\"")) ProcessKind.browser
        ⟨false, false⟩ =
      Except.error (typeMismatchMsg "is_packaged" VarType.boolT VarType.stringT) ∧
    buildCondition (.vIs "origin" (.booleanValue "true")) ProcessKind.renderer
        ⟨false, false⟩ =
      Except.error (typeMismatchMsg "origin" VarType.stringT VarType.boolT) := by
  constructor
  · exact (validator_type_mismatch "is_packaged"
      { depends_on_url := false, renderer_depends_on_webframe := false,
        browser := some "$$app$$.isPackaged", renderer := none, type := VarType.boolT }
      rfl).1 rfl "\"x\"" ProcessKind.browser ⟨false, false⟩
  · exact (validator_type_mismatch "origin"
      { depends_on_url := true, custom_expression := some originCustomExpr,
        type := VarType.stringT }
      rfl).2.1 rfl "true" ProcessKind.renderer ⟨false, false⟩

set_option maxRecDepth 4000 in
/-- C7 (counterexample): an environment-keyed validator declaring only a
"development" branch, compiled with no environment name supplied: the
resolved name defaults to "production", no branch matches, and the fatal
error names the requested environment but does NOT list the declared
branch names — the message is identical whatever branches are declared,
and the declared branch name "development" does not occur in it. -/
theorem wireValidator_env_error_counterexample :
    selectValidatorGrammar none none
        (.structureG [("development", .vIs "is_packaged" (.booleanValue "true"))]) =
      Except.error (envErrMsg "production") ∧
    selectValidatorGrammar none none
        (.structureG [("staging", .vIs "is_packaged" (.booleanValue "true"))]) =
      Except.error (envErrMsg "production") ∧
    ¬ ("development".data <:+: (envErrMsg "production").data) := by
  refine ⟨rfl, rfl, by decide⟩

/-- C7 (amended): environment-keyed validator compilation resolves the
environment name as EIPC_ENV || NODE_ENV || "production" (empty or unset
variables fall through), selects exactly the first declared branch whose
name equals the resolved name, and when no declared branch matches it
fails with a fatal error naming the requested environment name (the
message does not list the declared branch names). -/
theorem wireValidator_env_selection_amended
    (eipcEnv nodeEnv : Option String) (options : List (String × ValidatorStatement)) :
    resolveEnvName none none = "production" ∧
    (∀ s, s ≠ "" → resolveEnvName (some s) nodeEnv = s) ∧
    resolveEnvName (some "") nodeEnv = resolveEnvName none nodeEnv ∧
    (∀ pre g post, options = pre ++ (resolveEnvName eipcEnv nodeEnv, g) :: post →
      (∀ o ∈ pre, o.1 ≠ resolveEnvName eipcEnv nodeEnv) →
      selectValidatorGrammar eipcEnv nodeEnv (.structureG options) = Except.ok g) ∧
    ((∀ o ∈ options, o.1 ≠ resolveEnvName eipcEnv nodeEnv) →
      selectValidatorGrammar eipcEnv nodeEnv (.structureG options) =
        Except.error (envErrMsg (resolveEnvName eipcEnv nodeEnv))) := by
  refine ⟨rfl, ?_, rfl, ?_, ?_⟩
  · intro s hs
    simp [resolveEnvName, jsStrOr, hs]
  · intro pre g post hopts hpre
    subst hopts
    have hf : (pre ++ (resolveEnvName eipcEnv nodeEnv, g) :: post).find?
        (fun o => o.1 == resolveEnvName eipcEnv nodeEnv) =
          some (resolveEnvName eipcEnv nodeEnv, g) := by
      induction pre with
      | nil => simp
      | cons p pre' ih =>
        have hne : (p.1 == resolveEnvName eipcEnv nodeEnv) = false :=
          beq_eq_false_iff_ne.mpr (hpre p (List.mem_cons_self _ _))
        simp only [List.cons_append, List.find?_cons, hne]
        exact ih fun o ho => hpre o (List.mem_cons_of_mem _ ho)
    simp [selectValidatorGrammar, hf]
  · intro hnone
    have hf : options.find? (fun o => o.1 == resolveEnvName eipcEnv nodeEnv) = none :=
      List.find?_eq_none.mpr fun o ho => by simpa using hnone o ho
    simp [selectValidatorGrammar, hf]

theorem wireValidator_env_selection_amended_witness :
    selectValidatorGrammar none none
        (.structureG [("development", .dynamicGlobal "d"),
          ("production", .vIs "is_packaged" (.booleanValue "true"))]) =
      Except.ok (.vIs "is_packaged" (.booleanValue "true")) ∧
    selectValidatorGrammar none none
        (.structureG [("development", .dynamicGlobal "d")]) =
      Except.error (envErrMsg "production") := by
  constructor
  · exact (wireValidator_env_selection_amended none none
      [("development", .dynamicGlobal "d"),
        ("production", .vIs "is_packaged" (.booleanValue "true"))]).2.2.2.1
      [("development", .dynamicGlobal "d")] (.vIs "is_packaged" (.booleanValue "true")) []
      rfl
      (by
        intro o ho
        rw [List.mem_singleton] at ho
        subst ho
        decide)
  · exact (wireValidator_env_selection_amended none none
      [("development", .dynamicGlobal "d")]).2.2.2.2
      (by
        intro o ho
        rw [List.mem_singleton] at ho
        subst ho
        decide)

/-- C1 (counterexample): a module with a duplicate declaration name (two
structures named A) and an unknown-validator defect (interface I
references undeclared validator V).  `buildWiring` throws the duplicate
error from its first registration pass — a single error carrying no
aggregated list — so the compile does NOT report the unknown-validator
defect together with it, even though `validateModule` would have found it
(second conjunct). -/
theorem buildWiring_failfast_counterexample :
    buildWiringCheck cexModule =
      Except.error (.duplicateDefinition "A" "Structure" "Structure") ∧
    validateModuleErrors cexModule (PRIMITIVES ++ ["A", "I"]) =
      [unknownValidatorMsg "I" "V" []] := by
  constructor
  · rfl
  · rfl

/-- C1 (amended): duplicate declaration names (and primitive
redeclarations) abort compilation fail-fast in `buildWiring`'s first
registration pass; for every module whose first pass succeeds, the
remaining semantic defect classes (unresolved type references, unknown
validator references, enum name/value collisions, unresolved subtype
parents, duplicate methods/properties) are accumulated by
`validateModule` and reported together in one aggregated error: the
compile succeeds iff no element has a defect, otherwise it fails with
exactly the accumulated error list, and every defect found in any element
appears in that list. -/
theorem buildWiring_error_accumulation_amended (m : ModuleAst) (allowed : List String)
    (hfp : firstPass m.elements [] PRIMITIVES = Except.ok allowed) :
    (validateModuleErrors m allowed = [] → buildWiringCheck m = Except.ok ()) ∧
    (validateModuleErrors m allowed ≠ [] →
      buildWiringCheck m =
        Except.error (.semanticErrors (validateModuleErrors m allowed))) ∧
    (∀ e ∈ m.elements, ∀ msg ∈ elementErrors (validatorNames m) allowed e,
      msg ∈ validateModuleErrors m allowed) := by
  refine ⟨?_, ?_, ?_⟩
  · intro h
    simp [buildWiringCheck, hfp, h]
  · intro h
    have hne : (validateModuleErrors m allowed).isEmpty = false := by
      simpa [List.isEmpty_iff] using h
    simp [buildWiringCheck, hfp, hne]
  · intro e he msg hmsg
    have hfold : ∀ (l : List ModuleElement) (acc : List String),
        l.foldl (fun errs x => errs ++ elementErrors (validatorNames m) allowed x) acc =
          acc ++ l.flatMap (elementErrors (validatorNames m) allowed) := by
      intro l
      induction l with
      | nil => intro acc; simp
      | cons x xs ih => intro acc; simp [ih]
    show msg ∈ validateModuleErrors m allowed
    rw [validateModuleErrors, hfold]
    simp only [List.nil_append]
    exact List.mem_flatMap.mpr ⟨e, he, hmsg⟩

theorem buildWiring_error_accumulation_amended_witness :
    buildWiringCheck witModule =
      Except.error (.semanticErrors
        [dupEnumValueMsg "E" "x", subTypeParentMsg "S" "Nope"]) ∧
    dupEnumValueMsg "E" "x" ∈
      validateModuleErrors witModule (PRIMITIVES ++ ["E", "S", "V"]) ∧
    subTypeParentMsg "S" "Nope" ∈
      validateModuleErrors witModule (PRIMITIVES ++ ["E", "S", "V"]) := by
  have h := buildWiring_error_accumulation_amended witModule (PRIMITIVES ++ ["E", "S", "V"])
    rfl
  have herr : validateModuleErrors witModule (PRIMITIVES ++ ["E", "S", "V"]) =
      [dupEnumValueMsg "E" "x", subTypeParentMsg "S" "Nope"] := by rfl
  refine ⟨?_, ?_, ?_⟩
  · have hout := h.2.1 (by rw [herr]; simp)
    rw [herr] at hout
    exact hout
  · exact h.2.2 (.enumE "E" [("a", some "x"), ("b", some "x")])
      (List.mem_cons_self _ _) (dupEnumValueMsg "E" "x") (by decide)
  · exact h.2.2 (.subTypeE "S" "Nope")
      (List.mem_cons_of_mem _ (List.mem_cons_self _ _)) (subTypeParentMsg "S" "Nope")
      (by decide)
